import Mathlib

/-!
Shallow embedding of the `build_details` crate (src/src/lib.rs and
src/src/error.rs): a build-time metadata generator that renders build
details as Rust constant declarations.

The process environment is modelled as an association list of
name/value pairs, the wall clock as an `Option Nat` (seconds since the
epoch, `none` on a clock error), and the output sink as the list of
lines written so far.  Fallible Rust functions returning
`Result<T, Error>` become `Except Error T`.
-/

/-- Embedding of `error::Error` (src/src/error.rs).  `Fmt` and `Io`
carry error payloads in Rust; the payloads are irrelevant to rendering
and are dropped here. -/
inductive Error where
  | Fmt
  | Io
  | Missing
  | MissingDetail (name : String)
  | MissingEnv (name : String)
deriving DecidableEq

/-- The process environment: a finite list of variable/value pairs.
A real process environment has pairwise distinct variable names;
theorems that need this state it as a `Nodup` hypothesis. -/
abbrev EnvMap := List (String × String)

/-- Embedding of `std::env::var(name).ok()`: the value of the first
binding of `name`, if any. -/
def envVar (e : EnvMap) (n : String) : Option String :=
  (e.find? (fun p => p.1 == n)).map (fun p => p.2)

/-- Embedding of Rust `str::starts_with` on variable names
(char-level model of the byte-level original). -/
def strStartsWith (pfx s : String) : Bool :=
  pfx.data.isPrefixOf s.data

/-- Embedding of the Rust slice `&k[pfx.len()..]`
(char-level model of the byte-level original). -/
def strDropPfx (pfx s : String) : String :=
  ⟨s.data.drop pfx.data.length⟩

/-- One insertion step of `collect::<HashMap<_, _>>()`: a later
binding of the same key replaces an earlier one. -/
def hmInsert (m : List (String × String)) (k v : String) : List (String × String) :=
  (k, v) :: m.filter (fun p => !(p.1 == k))

/-- Embedding of `collect::<HashMap<_, _>>()` over a sequence of
key/value pairs: left-to-right insertion, last binding wins. -/
def hmCollect (l : List (String × String)) : List (String × String) :=
  l.foldl (fun m kv => hmInsert m kv.1 kv.2) []

/-- Embedding of `HashMap::get`. -/
def hmLookup (m : List (String × String)) (k : String) : Option String :=
  (m.find? (fun p => p.1 == k)).map (fun p => p.2)

/-- Embedding of `find_matching_vars` (src/src/lib.rs:415-426): scan
the environment, keep the variables whose name starts with `pfx`,
keyed by the name with `pfx` stripped, collected into a hash map. -/
def find_matching_vars (pfx : String) (e : EnvMap) : List (String × String) :=
  hmCollect (e.filterMap (fun kv =>
    if strStartsWith pfx kv.1 then some (strDropPfx pfx kv.1, kv.2) else none))

/-- Escape of one character as in Rust `{:?}` formatting of strings
(model of `char::escape_debug` restricted to the escapes relevant
here: backslash, double quote, newline, tab, carriage return). -/
def escapeChar (ch : Char) : String :=
  if ch = '\\' then "\\\\"
  else if ch = '\"' then "\\\""
  else if ch = '\n' then "\\n"
  else if ch = '\t' then "\\t"
  else if ch = '\r' then "\\r"
  else String.singleton ch

/-- Model of Rust `format!("{:?}", s)` for a string `s`: the quoted,
escaped literal. -/
def rustDebug (s : String) : String :=
  "\"" ++ String.join (s.data.map escapeChar) ++ "\""

/-- Modelled from the spec: the compile-time-constructible constant-map
literal built by the external `phf_codegen::Map` helper (a dependency,
not code of this repository) from all entries, with values already
debug-quoted by `BuildEnvMap::render`.  Its exact text is outside this
repository; only that it is produced without failure matters here. -/
def phfMapLiteral (entries : List (String × String)) : String :=
  "::phf::Map \x7b entries: &[" ++
    String.join (entries.map (fun kv => "(" ++ rustDebug kv.1 ++ ", " ++ kv.2 ++ "), ")) ++
    "] \x7d"

/-- The value shapes behind the `Render` trait objects
(src/src/lib.rs): `Env` is a deferred environment reference,
`BuildEnv` a generation-time snapshot of one variable, `timestamp` the
`Option<u64>` produced by `Timestamp::new`, `envList` the key list of
`BuildEnvList`, and `envMap` the entry map of `BuildEnvMap`. -/
inductive RenderVal where
  | envRef (var : String)
  | buildEnv (val : Option String)
  | timestamp (val : Option Nat)
  | envList (val : List String)
  | envMap (val : List (String × String))
deriving DecidableEq

/-- Embedding of `BuildEnvList::render` (src/src/lib.rs:450-462). -/
def envListBody (items : List String) : String :=
  "&[\n" ++ String.join (items.map (fun item => "    " ++ rustDebug item ++ ",\n")) ++ "]"

/-- Embedding of the `render` side of each `Render` impl
(src/src/lib.rs:365-495 and the `Option<T>` impl at 324-341).  Only an
absent snapshot (`BuildEnv(None)`, `Option::<u64>::None`) produces
`Error::Missing`; every other shape always succeeds. -/
def RenderVal.render : RenderVal → Except Error String
  | .envRef v => .ok ("env!(\"" ++ v ++ "\")")
  | .buildEnv (some x) => .ok (rustDebug x)
  | .buildEnv none => .error .Missing
  | .timestamp (some x) => .ok (toString x)
  | .timestamp none => .error .Missing
  | .envList items => .ok (envListBody items)
  | .envMap entries => .ok (phfMapLiteral entries)

/-- Embedding of the `render_option` side of each `Render` impl:
`Env` emits a deferred `option_env!` reference, snapshots emit
`Some(..)`/`None`, and the list and map shapes wrap their (infallible)
required render in `Some(..)`. -/
def RenderVal.render_option : RenderVal → Except Error String
  | .envRef v => .ok ("option_env!(\"" ++ v ++ "\")")
  | .buildEnv (some x) => .ok ("Some(" ++ rustDebug x ++ ")")
  | .buildEnv none => .ok "None"
  | .timestamp (some x) => .ok ("Some(" ++ toString x ++ ")")
  | .timestamp none => .ok "None"
  | .envList items => (RenderVal.envList items).render.map (fun s => "Some(" ++ s ++ ")")
  | .envMap entries => (RenderVal.envMap entries).render.map (fun s => "Some(" ++ s ++ ")")

/-- Embedding of `Detail<T>` (src/src/lib.rs:281-288): a value paired
with the constant name and the Rust type label. -/
structure Detail where
  name : String
  value_type : String
  value : RenderVal
deriving DecidableEq

/-- Embedding of `Detail::render_option` (src/src/lib.rs:294-301). -/
def Detail.render_option (d : Detail) : Except Error String :=
  (d.value.render_option).map (fun value =>
    "pub const " ++ d.name ++ ": Option<" ++ d.value_type ++ "> = " ++ value ++ ";")

/-- Embedding of `Detail::render` (src/src/lib.rs:303-316): a
`Missing` failure of the value is upgraded to `MissingDetail` carrying
the constant name; other failures pass through unchanged. -/
def Detail.render (d : Detail) : Except Error String :=
  match d.value.render with
  | .ok x => .ok ("pub const " ++ d.name ++ ": " ++ d.value_type ++ " = " ++ x ++ ";")
  | .error .Missing => .error (.MissingDetail d.name)
  | .error e => .error e

/-- Embedding of the `BuildDetail` enum (src/src/lib.rs:202-244),
without the hidden, unconstructible `__Nonexhaustive` variant. -/
inductive BuildDetail where
  | Timestamp
  | Version
  | Profile
  | RustFlags
  | Name
  | Authors
  | Description
  | Homepage
  | OptLevel
  | Cfg
  | Features
deriving DecidableEq

/-- Embedding of `BuildDetail::into_render` (src/src/lib.rs:247-268)
together with the constructors it calls (`Timestamp::new`,
`Env::new`, `BuildEnv::new`, `BuildEnvList::new`, `BuildEnvMap::new`):
the environment `e` and the clock reading `c` stand for the process
state consulted at render time. -/
def BuildDetail.into_render (d : BuildDetail) (e : EnvMap) (c : Option Nat) : Detail :=
  match d with
  | .Timestamp => ⟨"TIMESTAMP", "u64", .timestamp c⟩
  | .Version => ⟨"VERSION", "&\x27static str", .envRef "CARGO_PKG_VERSION"⟩
  | .Name => ⟨"NAME", "&\x27static str", .envRef "CARGO_PKG_NAME"⟩
  | .Authors => ⟨"AUTHORS", "&\x27static str", .envRef "CARGO_PKG_AUTHORS"⟩
  | .Description => ⟨"DESCRIPTION", "&\x27static str", .envRef "CARGO_PKG_DESCRIPTION"⟩
  | .Homepage => ⟨"HOMEPAGE", "&\x27static str", .envRef "CARGO_PKG_HOMEPAGE"⟩
  | .RustFlags => ⟨"RUST_FLAGS", "&\x27static str", .envRef "RUSTFLAGS"⟩
  | .Profile => ⟨"PROFILE", "&\x27static str", .buildEnv (envVar e "PROFILE")⟩
  | .OptLevel => ⟨"OPT_LEVEL", "&\x27static str", .buildEnv (envVar e "OPT_LEVEL")⟩
  | .Cfg => ⟨"CFG", "::phf::Map<&\x27static str, &\x27static str>",
      .envMap (find_matching_vars "CARGO_CFG_" e)⟩
  | .Features => ⟨"FEATURES", "&\x27static [&\x27static str]",
      .envList ((find_matching_vars "CARGO_FEATURE_" e).map (fun kv => kv.1))⟩

/-- Embedding of `<BuildDetail as Render>::render_option`
(src/src/lib.rs:272-274). -/
def BuildDetail.render_option (d : BuildDetail) (e : EnvMap) (c : Option Nat) :
    Except Error String :=
  (d.into_render e c).render_option

/-- Embedding of `<BuildDetail as Render>::render`
(src/src/lib.rs:276-278). -/
def BuildDetail.render (d : BuildDetail) (e : EnvMap) (c : Option Nat) :
    Except Error String :=
  (d.into_render e c).render

/-- Embedding of the `BuildDetails` struct (src/src/lib.rs:79-82).
The two `HashSet<BuildDetail>` fields become lists of distinct
elements in an unspecified order; theorems that need distinctness
state it as a `Nodup` hypothesis. -/
structure BuildDetails where
  optional : List BuildDetail
  required : List BuildDetail
deriving DecidableEq

/-- Embedding of `HashSet::insert`: a no-op when the element is
already present. -/
def hsInsert (l : List BuildDetail) (d : BuildDetail) : List BuildDetail :=
  if d ∈ l then l else l ++ [d]

/-- Embedding of `BuildDetails::default` (src/src/lib.rs:84-95). -/
def BuildDetails.default : BuildDetails :=
  ⟨[.Version, .Profile, .RustFlags], []⟩

/-- Embedding of `BuildDetails::all` (src/src/lib.rs:100-116), with
exactly the kinds the source lists (`OptLevel` is absent there). -/
def BuildDetails.all : BuildDetails :=
  ⟨[.Timestamp, .Version, .Profile, .RustFlags, .Name, .Authors,
    .Description, .Homepage, .Cfg, .Features], []⟩

/-- Embedding of `BuildDetails::require_all` (src/src/lib.rs:127-131):
`all` with the two sets swapped. -/
def BuildDetails.require_all : BuildDetails :=
  ⟨BuildDetails.all.required, BuildDetails.all.optional⟩

/-- Embedding of `BuildDetails::none` (src/src/lib.rs:137-142). -/
def BuildDetails.none : BuildDetails :=
  ⟨[], []⟩

/-- Embedding of `BuildDetails::require` (src/src/lib.rs:148-152). -/
def BuildDetails.require (bd : BuildDetails) (d : BuildDetail) : BuildDetails :=
  ⟨bd.optional.erase d, hsInsert bd.required d⟩

/-- Embedding of `BuildDetails::include` (src/src/lib.rs:158-162);
`include` is a Lean keyword, hence the underscore. -/
def BuildDetails.include_ (bd : BuildDetails) (d : BuildDetail) : BuildDetails :=
  ⟨hsInsert bd.optional d, bd.required.erase d⟩

/-- Embedding of `BuildDetails::exclude` (src/src/lib.rs:165-169). -/
def BuildDetails.exclude (bd : BuildDetails) (d : BuildDetail) : BuildDetails :=
  ⟨bd.optional.erase d, bd.required.erase d⟩

/-- One emission loop of `write_to`: render each detail with `f`,
append the rendered line to the sink `acc`, and stop at the first
render failure, returning the sink contents so far and the error. -/
def writeLoop (f : BuildDetail → Except Error String) :
    List BuildDetail → List String → List String × Option Error
  | [], acc => (acc, Option.none)
  | d :: rest, acc =>
    match f d with
    | .ok s => writeLoop f rest (acc ++ [s])
    | .error err => (acc, some err)

/-- Embedding of `BuildDetails::write_to` (src/src/lib.rs:188-198):
emit one line per optional kind via `render_option`, then one line per
required kind via `render`, aborting the whole write at the first
failure.  The returned list is the sink contents (the `writeln!`
target is modelled as infallible). -/
def BuildDetails.write_to (bd : BuildDetails) (e : EnvMap) (c : Option Nat) :
    List String × Option Error :=
  match writeLoop (fun d => d.render_option e c) bd.optional [] with
  | (acc, some err) => (acc, some err)
  | (acc, Option.none) => writeLoop (fun d => d.render e c) bd.required acc

/-- Filesystem actions `generate` can perform, in order: creating the
output file, then writing one line at a time. -/
inductive FsOp where
  | create (path : String)
  | writeLine (line : String)
deriving DecidableEq

/-- Embedding of `PathBuf::push`: join the output directory and the
caller's relative path. -/
def pathJoin (dir file : String) : String :=
  dir ++ "/" ++ file

/-- Embedding of `BuildDetails::generate` (src/src/lib.rs:173-185):
fail with `MissingEnv("OUT_DIR")` when `OUT_DIR` is unset, otherwise
create the joined output path and delegate to `write_to`.  The first
component is the trace of filesystem actions performed
(`File::create` is modelled as succeeding). -/
def BuildDetails.generate (bd : BuildDetails) (path : String) (e : EnvMap)
    (c : Option Nat) : List FsOp × Option Error :=
  match envVar e "OUT_DIR" with
  | Option.none => ([], some (.MissingEnv "OUT_DIR"))
  | some out =>
    let r := bd.write_to e c
    (FsOp.create (pathJoin out path) :: r.1.map FsOp.writeLine, r.2)

/-- Specification-side: the declared constant name of each kind, as
the spec's catalog table lists them. -/
def constName (d : BuildDetail) : String :=
  match d with
  | .Timestamp => "TIMESTAMP"
  | .Version => "VERSION"
  | .Profile => "PROFILE"
  | .RustFlags => "RUST_FLAGS"
  | .Name => "NAME"
  | .Authors => "AUTHORS"
  | .Description => "DESCRIPTION"
  | .Homepage => "HOMEPAGE"
  | .OptLevel => "OPT_LEVEL"
  | .Cfg => "CFG"
  | .Features => "FEATURES"

/-- Specification-side: the Rust type label of each kind. -/
def valueTypeOf (d : BuildDetail) : String :=
  match d with
  | .Timestamp => "u64"
  | .Cfg => "::phf::Map<&\x27static str, &\x27static str>"
  | .Features => "&\x27static [&\x27static str]"
  | _ => "&\x27static str"

/-- Specification-side: whether the generation-time snapshot a kind's
required render consults is absent — the `PROFILE`/`OPT_LEVEL`
variable unset for the two snapshot kinds, a failed clock read for
`Timestamp`, and never for any other kind (deferred-reference and
prefix-scan kinds consult no snapshot). -/
def snapshotAbsent (d : BuildDetail) (e : EnvMap) (c : Option Nat) : Bool :=
  match d with
  | .Timestamp => c.isNone
  | .Profile => (envVar e "PROFILE").isNone
  | .OptLevel => (envVar e "OPT_LEVEL").isNone
  | _ => false

/-- Specification-side: whether the backing environment data of a kind,
as the spec's catalog table describes it, is absent — the backing
variable unset for every single-variable kind, a failed clock read for
`Timestamp`, never for the prefix-scan kinds. -/
def specBackingAbsent (d : BuildDetail) (e : EnvMap) (c : Option Nat) : Bool :=
  match d with
  | .Timestamp => c.isNone
  | .Version => (envVar e "CARGO_PKG_VERSION").isNone
  | .Name => (envVar e "CARGO_PKG_NAME").isNone
  | .Authors => (envVar e "CARGO_PKG_AUTHORS").isNone
  | .Description => (envVar e "CARGO_PKG_DESCRIPTION").isNone
  | .Homepage => (envVar e "CARGO_PKG_HOMEPAGE").isNone
  | .RustFlags => (envVar e "RUSTFLAGS").isNone
  | .Profile => (envVar e "PROFILE").isNone
  | .OptLevel => (envVar e "OPT_LEVEL").isNone
  | .Cfg => false
  | .Features => false

/-- Specification-side: the successfully rendered lines before the
first failure of a render sequence. -/
def okLines : List (Except Error String) → List String
  | [] => []
  | .ok s :: rest => s :: okLines rest
  | .error _ :: _ => []

/-- Specification-side: the first failure of a render sequence, if
any. -/
def firstErr : List (Except Error String) → Option Error
  | [] => Option.none
  | .ok _ :: rest => firstErr rest
  | .error err :: _ => some err

/-- Specification-side: the line of a render known to succeed. -/
def exOk : Except Error String → String
  | .ok s => s
  | .error _ => ""

/-- Specification-side: the value of the last binding of a key in a
key/value sequence, if any — the value a last-binding-wins collection
retains. -/
def lastLookup : List (String × String) → String → Option String
  | [], _ => Option.none
  | kv :: l, k => (lastLookup l k).or (if kv.1 == k then some kv.2 else Option.none)

/-- Specification-side: `true` unless the outcome is a
`MissingDetail` naming one of the listed constants. -/
def noMissingDetailFor (o : Option Error) (bad : List String) : Bool :=
  match o with
  | some (.MissingDetail n) => !(bad.contains n)
  | _ => true

/-- Specification-side: the required and optional sets share no kind. -/
def disjointSets (bd : BuildDetails) : Bool :=
  bd.required.all (fun d => !(bd.optional.contains d))

/-- The three mutation operations of `BuildDetails`, reified so that
arbitrary call sequences can be quantified over. -/
inductive Op where
  | require (d : BuildDetail)
  | include_ (d : BuildDetail)
  | exclude (d : BuildDetail)

/-- Apply one reified mutation. -/
def applyOp (bd : BuildDetails) : Op → BuildDetails
  | .require d => bd.require d
  | .include_ d => bd.include_ d
  | .exclude d => bd.exclude d

/-- Apply a sequence of reified mutations, left to right. -/
def applyOps (bd : BuildDetails) (ops : List Op) : BuildDetails :=
  ops.foldl applyOp bd

/-- The four named constructors of `BuildDetails`. -/
inductive NamedCtor where
  | default
  | all
  | none
  | require_all

/-- The `BuildDetails` value each named constructor returns. -/
def ctorOf : NamedCtor → BuildDetails
  | .default => BuildDetails.default
  | .all => BuildDetails.all
  | .none => BuildDetails.none
  | .require_all => BuildDetails.require_all

theorem writeLoop_eq (f : BuildDetail → Except Error String) (l : List BuildDetail)
    (acc : List String) :
    writeLoop f l acc = (acc ++ okLines (l.map f), firstErr (l.map f)) := by
  induction l generalizing acc with
  | nil => simp [writeLoop, okLines, firstErr]
  | cons d rest ih =>
    simp only [writeLoop, List.map_cons]
    cases h : f d with
    | ok s =>
      dsimp only
      rw [ih]
      simp [okLines, firstErr]
    | error err =>
      dsimp only
      simp [okLines, firstErr]

theorem into_render_name (d : BuildDetail) (e : EnvMap) (c : Option Nat) :
    (d.into_render e c).name = constName d := by
  cases d <;> rfl

theorem renderVal_render_option_isOk (v : RenderVal) :
    ∃ s, v.render_option = .ok s := by
  cases v with
  | envRef var => exact ⟨_, rfl⟩
  | buildEnv o => cases o <;> exact ⟨_, rfl⟩
  | timestamp o => cases o <;> exact ⟨_, rfl⟩
  | envList items => exact ⟨_, rfl⟩
  | envMap entries => exact ⟨_, rfl⟩

theorem render_option_isOk (d : BuildDetail) (e : EnvMap) (c : Option Nat) :
    ∃ s, d.render_option e c = .ok s := by
  obtain ⟨s, hs⟩ := renderVal_render_option_isOk (d.into_render e c).value
  simp [BuildDetail.render_option, Detail.render_option, hs, Except.map]

theorem render_eq_of_absent (d : BuildDetail) (e : EnvMap) (c : Option Nat)
    (h : snapshotAbsent d e c = true) :
    d.render e c = .error (.MissingDetail (constName d)) := by
  cases d <;>
    simp only [snapshotAbsent, Option.isNone_iff_eq_none, Bool.false_eq_true] at h <;>
    simp [BuildDetail.render, BuildDetail.into_render, Detail.render,
      RenderVal.render, constName, h]

theorem render_isOk_of_not_absent (d : BuildDetail) (e : EnvMap) (c : Option Nat)
    (h : snapshotAbsent d e c = false) :
    ∃ s, d.render e c = .ok s := by
  cases d <;>
    simp only [snapshotAbsent, Option.isNone_eq_false_iff, Option.isSome_iff_exists] at h <;>
    first
      | (obtain ⟨x, hx⟩ := h
         simp [BuildDetail.render, BuildDetail.into_render, Detail.render,
           RenderVal.render, hx])
      | simp [BuildDetail.render, BuildDetail.into_render, Detail.render,
          RenderVal.render]

theorem firstErr_required (l : List BuildDetail) (e : EnvMap) (c : Option Nat) :
    firstErr (l.map (fun d => d.render e c)) =
      (l.find? (fun d => snapshotAbsent d e c)).map
        (fun d => Error.MissingDetail (constName d)) := by
  induction l with
  | nil => rfl
  | cons d rest ih =>
    simp only [List.map_cons]
    cases h : snapshotAbsent d e c with
    | true =>
      rw [render_eq_of_absent d e c h, List.find?_cons_of_pos _ (by simp [h])]
      simp [firstErr]
    | false =>
      obtain ⟨s, hs⟩ := render_isOk_of_not_absent d e c h
      rw [hs, List.find?_cons_of_neg _ (by simp [h])]
      simpa [firstErr] using ih

theorem firstErr_of_all_ok (rs : List (Except Error String))
    (h : ∀ r ∈ rs, ∃ s, r = .ok s) : firstErr rs = Option.none := by
  induction rs with
  | nil => rfl
  | cons r rest ih =>
    obtain ⟨s, hs⟩ := h r (by simp)
    subst hs
    exact ih (fun r hr => h r (by simp [hr]))

theorem okLines_of_all_ok (rs : List (Except Error String))
    (h : ∀ r ∈ rs, ∃ s, r = .ok s) : okLines rs = rs.map exOk := by
  induction rs with
  | nil => rfl
  | cons r rest ih =>
    obtain ⟨s, hs⟩ := h r (by simp)
    subst hs
    simp only [okLines, exOk, List.map_cons]
    exact congrArg _ (ih (fun r hr => h r (by simp [hr])))

theorem write_to_eq (bd : BuildDetails) (e : EnvMap) (c : Option Nat) :
    bd.write_to e c =
      (bd.optional.map (fun d => exOk (d.render_option e c)) ++
         okLines (bd.required.map (fun d => d.render e c)),
       firstErr (bd.required.map (fun d => d.render e c))) := by
  have hok : ∀ r ∈ bd.optional.map (fun d => d.render_option e c), ∃ s, r = .ok s := by
    intro r hr
    obtain ⟨d, _, rfl⟩ := List.mem_map.mp hr
    exact render_option_isOk d e c
  unfold BuildDetails.write_to
  rw [writeLoop_eq, firstErr_of_all_ok _ hok, okLines_of_all_ok _ hok]
  dsimp only
  rw [writeLoop_eq]
  simp [List.map_map, Function.comp]

theorem write_to_snd (bd : BuildDetails) (e : EnvMap) (c : Option Nat) :
    (bd.write_to e c).2 =
      (bd.required.find? (fun d => snapshotAbsent d e c)).map
        (fun d => Error.MissingDetail (constName d)) := by
  rw [write_to_eq]
  exact firstErr_required bd.required e c

/-- C1 counterexample: with `Version` required and an environment that
does not bind `CARGO_PKG_VERSION`, the kind's backing environment data
is absent at generation time, yet `write_to` succeeds — refuting, for
the deferred-reference kinds, that a required render "fails with
`MissingDetail(name)` exactly when the backing environment data for
that kind is absent". -/
theorem c1_counterexample :
    specBackingAbsent .Version [] Option.none = true ∧
    ((BuildDetails.mk [] [.Version]).write_to [] Option.none).2 = Option.none := by
  constructor <;> rfl

/-- C1 (amended): the error of `write_to` is exactly `MissingDetail`
of the declared constant name of the first required kind whose
generation-time snapshot is absent (`PROFILE`/`OPT_LEVEL` unset for
the snapshot kinds, a failed clock read for `Timestamp`); in
particular the internal `Missing` error never escapes, and kinds whose
required render is a deferred reference or a prefix scan never fail. -/
theorem c1_required_failure_characterization (bd : BuildDetails) (e : EnvMap)
    (c : Option Nat) :
    (bd.write_to e c).2 =
      (bd.required.find? (fun d => snapshotAbsent d e c)).map
        (fun d => Error.MissingDetail (constName d)) :=
  write_to_snd bd e c

/-- C5: `write_to` emits one line per kind of the optional set (which
never fails) before any required line, then the required lines up to
the first failing render; the first failure aborts the write and is
returned while the lines already emitted remain in the sink. -/
theorem c5_write_to_order_and_abort (bd : BuildDetails) (e : EnvMap) (c : Option Nat) :
    bd.write_to e c =
      (bd.optional.map (fun d => exOk (d.render_option e c)) ++
         okLines (bd.required.map (fun d => d.render e c)),
       firstErr (bd.required.map (fun d => d.render e c))) :=
  write_to_eq bd e c

/-- C9: the six deferred-reference kinds always required-render
successfully as `env!("VAR")` regardless of the environment, and
`write_to` never returns `MissingDetail` naming any of them. -/
theorem c9_deferred_kinds_never_fail :
    (∀ (e : EnvMap) (c : Option Nat),
      BuildDetail.render .Version e c =
        .ok "pub const VERSION: &\x27static str = env!(\"CARGO_PKG_VERSION\");" ∧
      BuildDetail.render .Name e c =
        .ok "pub const NAME: &\x27static str = env!(\"CARGO_PKG_NAME\");" ∧
      BuildDetail.render .Authors e c =
        .ok "pub const AUTHORS: &\x27static str = env!(\"CARGO_PKG_AUTHORS\");" ∧
      BuildDetail.render .Description e c =
        .ok "pub const DESCRIPTION: &\x27static str = env!(\"CARGO_PKG_DESCRIPTION\");" ∧
      BuildDetail.render .Homepage e c =
        .ok "pub const HOMEPAGE: &\x27static str = env!(\"CARGO_PKG_HOMEPAGE\");" ∧
      BuildDetail.render .RustFlags e c =
        .ok "pub const RUST_FLAGS: &\x27static str = env!(\"RUSTFLAGS\");") ∧
    (∀ (bd : BuildDetails) (e : EnvMap) (c : Option Nat),
      noMissingDetailFor (bd.write_to e c).2
        ["VERSION", "NAME", "AUTHORS", "DESCRIPTION", "HOMEPAGE", "RUST_FLAGS"] = true) := by
  refine ⟨fun e c => ⟨rfl, rfl, rfl, rfl, rfl, rfl⟩, fun bd e c => ?_⟩
  rw [write_to_snd]
  cases hf : bd.required.find? (fun d => snapshotAbsent d e c) with
  | none => rfl
  | some d =>
    have hd := List.find?_some hf
    cases d <;> first | rfl | simp [snapshotAbsent] at hd

/-- C2: optional rendering never fails for any value shape; with an
empty required set `write_to` always succeeds; and an absent snapshot
value is emitted as the `None` literal in the optional line. -/
theorem c2_optional_never_fails :
    (∀ v : RenderVal, ∃ s, v.render_option = .ok s) ∧
    (∀ (bd : BuildDetails) (e : EnvMap) (c : Option Nat),
      bd.required = [] → (bd.write_to e c).2 = Option.none) ∧
    (∀ (d : BuildDetail) (e : EnvMap) (c : Option Nat),
      snapshotAbsent d e c = true →
        d.render_option e c =
          .ok ("pub const " ++ constName d ++ ": Option<" ++ valueTypeOf d ++ "> = None;")) := by
  refine ⟨renderVal_render_option_isOk, fun bd e c h => ?_, fun d e c h => ?_⟩
  · rw [write_to_snd, h]
    rfl
  · cases d <;>
      simp only [snapshotAbsent, Option.isNone_iff_eq_none, Bool.false_eq_true] at h <;>
      simp [BuildDetail.render_option, BuildDetail.into_render, Detail.render_option,
        RenderVal.render_option, constName, valueTypeOf, h, Except.map]

/-- C2 witness: the theorem applied to an optional-only `Profile`
configuration in an environment where `PROFILE` is unset. -/
theorem c2_optional_never_fails_witness :
    ((BuildDetails.mk [.Profile] []).write_to [] Option.none).2 = Option.none ∧
    BuildDetail.render_option .Profile [] Option.none =
      .ok "pub const PROFILE: Option<&\x27static str> = None;" :=
  ⟨c2_optional_never_fails.2.1 (BuildDetails.mk [.Profile] []) [] Option.none rfl,
   c2_optional_never_fails.2.2 .Profile [] Option.none rfl⟩

/-- C6: with `PROFILE` unset, required-rendering the Profile kind
fails with `MissingDetail("PROFILE")`; with `PROFILE=release` it
succeeds and emits the full line with the quoted literal. -/
theorem c6_profile_required (e : EnvMap) (c : Option Nat) :
    (envVar e "PROFILE" = Option.none →
      BuildDetail.render .Profile e c = .error (.MissingDetail "PROFILE")) ∧
    (envVar e "PROFILE" = some "release" →
      BuildDetail.render .Profile e c =
        .ok "pub const PROFILE: &\x27static str = \"release\";") := by
  refine ⟨fun h => ?_, fun h => ?_⟩ <;>
    (show (Detail.mk "PROFILE" "&\x27static str"
        (RenderVal.buildEnv (envVar e "PROFILE"))).render = _
     rw [h]
     rfl)

/-- C6 witness: the theorem applied to the empty environment and to
one binding `PROFILE=release`. -/
theorem c6_profile_required_witness :
    (envVar [] "PROFILE" = Option.none ∧
      BuildDetail.render .Profile [] Option.none = .error (.MissingDetail "PROFILE")) ∧
    (envVar [("PROFILE", "release")] "PROFILE" = some "release" ∧
      BuildDetail.render .Profile [("PROFILE", "release")] Option.none =
        .ok "pub const PROFILE: &\x27static str = \"release\";") :=
  ⟨⟨rfl, (c6_profile_required [] Option.none).1 rfl⟩,
   ⟨rfl, (c6_profile_required [("PROFILE", "release")] Option.none).2 rfl⟩⟩

/-- C7: when `OUT_DIR` is unset, `generate` fails with
`MissingEnv("OUT_DIR")` and its filesystem trace is empty — no file is
created or truncated before the check. -/
theorem c7_generate_missing_out_dir (bd : BuildDetails) (path : String) (e : EnvMap)
    (c : Option Nat) (h : envVar e "OUT_DIR" = Option.none) :
    bd.generate path e c = ([], some (.MissingEnv "OUT_DIR")) := by
  unfold BuildDetails.generate
  rw [h]

/-- C7 witness: the theorem applied to the default configuration and
the empty environment. -/
theorem c7_generate_missing_out_dir_witness :
    envVar [] "OUT_DIR" = Option.none ∧
    BuildDetails.default.generate "build_details.rs" [] Option.none =
      ([], some (.MissingEnv "OUT_DIR")) :=
  ⟨rfl, c7_generate_missing_out_dir BuildDetails.default "build_details.rs" [] Option.none rfl⟩

/-- C3: evaluation of the catalog constructors: `all` marks exactly
ten kinds optional (required set empty) and `require_all` the same ten
required (optional set empty) — `OptLevel`, an available kind, is
absent from both, although the constructors' own documentation says
"all available details" and the claim says every kind. -/
theorem c3_all_and_require_all_contents :
    BuildDetails.all.required = [] ∧
    BuildDetails.require_all.optional = [] ∧
    (∀ d : BuildDetail, BuildDetails.all.optional.contains d = (d != .OptLevel)) ∧
    (∀ d : BuildDetail, BuildDetails.require_all.required.contains d = (d != .OptLevel)) := by
  refine ⟨rfl, rfl, fun d => ?_, fun d => ?_⟩ <;> cases d <;> rfl

/-- The representation invariant of the two `HashSet` fields of
`BuildDetails`: each list is duplicate-free and the two are
disjoint. -/
def SetsInv (bd : BuildDetails) : Prop :=
  bd.optional.Nodup ∧ bd.required.Nodup ∧ ∀ d ∈ bd.required, d ∉ bd.optional

theorem mem_hsInsert (l : List BuildDetail) (d x : BuildDetail) :
    x ∈ hsInsert l d ↔ x ∈ l ∨ x = d := by
  unfold hsInsert
  split
  · next hd =>
    constructor
    · exact Or.inl
    · rintro (hx | rfl)
      · exact hx
      · exact hd
  · simp

theorem hsInsert_nodup (l : List BuildDetail) (d : BuildDetail) (h : l.Nodup) :
    (hsInsert l d).Nodup := by
  unfold hsInsert
  split
  · exact h
  · next hd => simp [List.nodup_append, h, hd]

theorem hsInsert_self_mem (l : List BuildDetail) (d : BuildDetail) : d ∈ hsInsert l d := by
  unfold hsInsert
  split
  · assumption
  · simp

theorem hsInsert_of_mem (l : List BuildDetail) (d : BuildDetail) (h : d ∈ l) :
    hsInsert l d = l := by
  unfold hsInsert
  exact if_pos h

theorem erase_erase_of_nodup (l : List BuildDetail) (d : BuildDetail) (h : l.Nodup) :
    (l.erase d).erase d = l.erase d :=
  List.erase_of_not_mem (fun hmem => ((h.mem_erase_iff).mp hmem).1 rfl)

theorem setsInv_applyOp (bd : BuildDetails) (op : Op) (h : SetsInv bd) :
    SetsInv (applyOp bd op) := by
  obtain ⟨ho, hr, hdisj⟩ := h
  cases op with
  | require d =>
    refine ⟨ho.erase d, hsInsert_nodup _ _ hr, ?_⟩
    intro x hx hmem
    rcases (mem_hsInsert _ _ _).mp hx with hx | rfl
    · exact hdisj x hx (List.mem_of_mem_erase hmem)
    · exact ((ho.mem_erase_iff).mp hmem).1 rfl
  | include_ d =>
    refine ⟨hsInsert_nodup _ _ ho, hr.erase d, ?_⟩
    intro x hx hmem
    rcases (mem_hsInsert _ _ _).mp hmem with hmem | rfl
    · exact hdisj x (List.mem_of_mem_erase hx) hmem
    · exact ((hr.mem_erase_iff).mp hx).1 rfl
  | exclude d =>
    refine ⟨ho.erase d, hr.erase d, ?_⟩
    intro x hx hmem
    exact hdisj x (List.mem_of_mem_erase hx) (List.mem_of_mem_erase hmem)

theorem setsInv_ctor (ctor : NamedCtor) : SetsInv (ctorOf ctor) := by
  cases ctor <;> exact ⟨by decide, by decide, by decide⟩

theorem setsInv_applyOps (bd : BuildDetails) (ops : List Op) (h : SetsInv bd) :
    SetsInv (applyOps bd ops) := by
  induction ops generalizing bd with
  | nil => exact h
  | cons op rest ih => exact ih _ (setsInv_applyOp bd op h)

theorem disjointSets_of_inv (bd : BuildDetails) (h : ∀ d ∈ bd.required, d ∉ bd.optional) :
    disjointSets bd = true := by
  simp only [disjointSets, List.all_eq_true, Bool.not_eq_true']
  intro d hd
  simpa using h d hd

/-- C4: after any sequence of `require`/`include`/`exclude` calls on a
`BuildDetails` built by any of the four named constructors, the
required and optional sets are disjoint: no kind belongs to both. -/
theorem c4_sets_disjoint (ctor : NamedCtor) (ops : List Op) :
    disjointSets (applyOps (ctorOf ctor) ops) = true := by
  obtain ⟨-, -, h⟩ := setsInv_applyOps (ctorOf ctor) ops (setsInv_ctor ctor)
  exact disjointSets_of_inv _ h

/-- C10: `require`, `include` and `exclude` are idempotent: on any
state whose two set fields are duplicate-free (as `HashSet` contents
always are), applying the same operation twice in a row yields the
same pair of sets as applying it once. -/
theorem c10_ops_idempotent (bd : BuildDetails) (op : Op)
    (ho : bd.optional.Nodup) (hr : bd.required.Nodup) :
    applyOp (applyOp bd op) op = applyOp bd op := by
  cases op with
  | require d =>
    simp only [applyOp, BuildDetails.require]
    congr 1
    · exact erase_erase_of_nodup _ _ ho
    · exact hsInsert_of_mem _ _ (hsInsert_self_mem _ _)
  | include_ d =>
    simp only [applyOp, BuildDetails.include_]
    congr 1
    · exact hsInsert_of_mem _ _ (hsInsert_self_mem _ _)
    · exact erase_erase_of_nodup _ _ hr
  | exclude d =>
    simp only [applyOp, BuildDetails.exclude]
    congr 1
    · exact erase_erase_of_nodup _ _ ho
    · exact erase_erase_of_nodup _ _ hr

/-- C10 witness: the theorem applied to the `all` constructor and a
repeated `require(Timestamp)`. -/
theorem c10_ops_idempotent_witness :
    BuildDetails.all.optional.Nodup ∧ BuildDetails.all.required.Nodup ∧
    applyOp (applyOp BuildDetails.all (.require .Timestamp)) (.require .Timestamp) =
      applyOp BuildDetails.all (.require .Timestamp) :=
  ⟨by decide, by decide,
   c10_ops_idempotent BuildDetails.all (.require .Timestamp) (by decide) (by decide)⟩

theorem strStartsWith_append (pfx k : String) : strStartsWith pfx (pfx ++ k) = true := by
  rw [strStartsWith, List.isPrefixOf_iff_prefix, String.data_append]
  exact List.prefix_append pfx.data k.data

theorem strDropPfx_append (pfx k : String) : strDropPfx pfx (pfx ++ k) = k := by
  apply String.ext
  rw [strDropPfx, String.data_append]
  exact List.drop_left pfx.data k.data

theorem eq_append_of_strStartsWith (pfx n : String) (h : strStartsWith pfx n = true) :
    n = pfx ++ strDropPfx pfx n := by
  rw [strStartsWith, List.isPrefixOf_iff_prefix] at h
  obtain ⟨t, ht⟩ := h
  apply String.ext
  rw [String.data_append, strDropPfx, ← ht]
  rw [List.drop_left pfx.data t]

theorem append_left_cancel_str (pfx a b : String) (h : pfx ++ a = pfx ++ b) : a = b := by
  apply String.ext
  have := congrArg String.data h
  rw [String.data_append, String.data_append] at this
  exact List.append_cancel_left this

theorem hmLookup_hmInsert (m : List (String × String)) (k v k' : String) :
    hmLookup (hmInsert m k v) k' =
      if k == k' then some v else hmLookup m k' := by
  cases hk : (k == k') with
  | true =>
    have h1 : k = k' := by simpa using hk
    subst h1
    simp [hmLookup, hmInsert, List.find?_cons]
  | false =>
    simp only [hmLookup, hmInsert, List.find?_cons, hk, Bool.false_eq_true, if_false]
    congr 1
    induction m with
    | nil => rfl
    | cons a m ih =>
      cases ha : (a.1 == k) with
      | true =>
        have ha' : (a.1 == k') = false := by
          have h1 : a.1 = k := by simpa using ha
          rw [h1]
          exact hk
        simp [List.filter_cons, List.find?_cons, ha, ha', ih]
      | false =>
        cases hk' : (a.1 == k') with
        | true => simp [List.filter_cons, List.find?_cons, ha, hk']
        | false => simp [List.filter_cons, List.find?_cons, ha, hk', ih]

theorem hmLookup_foldl (l : List (String × String)) (m : List (String × String))
    (k : String) :
    hmLookup (l.foldl (fun m kv => hmInsert m kv.1 kv.2) m) k =
      (lastLookup l k).or (hmLookup m k) := by
  induction l generalizing m with
  | nil => simp [lastLookup]
  | cons kv l ih =>
    rw [List.foldl_cons, ih, lastLookup, Option.or_assoc]
    congr 1
    rw [hmLookup_hmInsert]
    cases h : (kv.1 == k) with
    | true => simp
    | false => simp

theorem hmLookup_hmCollect (l : List (String × String)) (k : String) :
    hmLookup (hmCollect l) k = lastLookup l k := by
  rw [hmCollect, hmLookup_foldl]
  simp [hmLookup]

theorem mem_cons_of_ne_head {α : Type} (a b : α) (l : List α) (h : a ≠ b) :
    a ∈ b :: l ↔ a ∈ l := by
  simp [List.mem_cons, h]

theorem lastLookup_filterMap (pfx : String) (k : String) :
    ∀ (e : EnvMap), (e.map Prod.fst).Nodup →
      ∀ v, (lastLookup (e.filterMap (fun kv =>
          if strStartsWith pfx kv.1 then some (strDropPfx pfx kv.1, kv.2) else none)) k
        = some v ↔ (pfx ++ k, v) ∈ e) := by
  intro e
  induction e with
  | nil =>
    intro _ v
    simp [lastLookup]
  | cons nw rest ih =>
    intro hnd v
    obtain ⟨n, w⟩ := nw
    simp only [List.map_cons, List.nodup_cons] at hnd
    obtain ⟨hn, hrest⟩ := hnd
    cases hs : strStartsWith pfx n with
    | false =>
      have hne : n ≠ pfx ++ k := by
        intro h
        rw [h, strStartsWith_append] at hs
        exact Bool.true_eq_false.mp hs
      rw [List.filterMap_cons_none (by simp [hs])]
      rw [ih hrest v, mem_cons_of_ne_head _ _ _ (fun hc => hne (congrArg Prod.fst hc).symm)]
    | true =>
      have hn_eq : n = pfx ++ strDropPfx pfx n := eq_append_of_strStartsWith pfx n hs
      have hf : List.filterMap (fun kv => if strStartsWith pfx kv.1 then
            some (strDropPfx pfx kv.1, kv.2) else none) ((n, w) :: rest)
          = (strDropPfx pfx n, w) :: List.filterMap (fun kv => if strStartsWith pfx kv.1 then
            some (strDropPfx pfx kv.1, kv.2) else none) rest := by
        simp [List.filterMap_cons, hs]
      rw [hf]
      cases hk : (strDropPfx pfx n == k) with
      | false =>
        have hne : n ≠ pfx ++ k := by
          intro h
          rw [h, strDropPfx_append] at hk
          simp at hk
        simp only [lastLookup, hk, Bool.false_eq_true, if_false, Option.or_none]
        rw [ih hrest v, mem_cons_of_ne_head _ _ _ (fun hc => hne (congrArg Prod.fst hc).symm)]
      | true =>
        have hsk : strDropPfx pfx n = k := by simpa using hk
        have hnk : n = pfx ++ k := by rw [hn_eq, hsk]
        have hnone : lastLookup (rest.filterMap (fun kv =>
            if strStartsWith pfx kv.1 then some (strDropPfx pfx kv.1, kv.2) else none)) k
            = Option.none := by
          cases hl : lastLookup (rest.filterMap (fun kv =>
              if strStartsWith pfx kv.1 then some (strDropPfx pfx kv.1, kv.2) else none)) k with
          | none => rfl
          | some v2 =>
            have hmem := (ih hrest v2).mp hl
            rw [hnk] at hn
            exact absurd (List.mem_map_of_mem Prod.fst hmem) hn
        simp only [lastLookup, hk, if_true, hnone, Option.none_or, List.mem_cons]
        constructor
        · intro h
          left
          rw [hnk]
          exact congrArg (Prod.mk (pfx ++ k)) (by simpa using h.symm)
        · rintro (h | h)
          · have hv : v = w := by simpa using congrArg Prod.snd h
            rw [hv]
          · rw [hnk] at hn
            exact absurd (List.mem_map_of_mem Prod.fst h) hn

/-- C8: on an environment with distinct variable names (as a process
environment has), the prefixed scan `find_matching_vars` maps a suffix
`k` to `v` exactly when the environment binds the variable named
`pfx ++ k` to `v`: it retains exactly the variables whose name starts
with the prefix, keyed by the stripped remainder. -/
theorem c8_find_matching_vars_exact (pfx : String) (e : EnvMap) (k v : String)
    (hnd : (e.map Prod.fst).Nodup) :
    hmLookup (find_matching_vars pfx e) k = some v ↔ (pfx ++ k, v) ∈ e := by
  rw [find_matching_vars, hmLookup_hmCollect]
  exact lastLookup_filterMap pfx k e hnd v

/-- C8 witness: the theorem applied to a two-variable environment with
the `CARGO_CFG_` prefix. -/
theorem c8_find_matching_vars_exact_witness :
    (([("CARGO_CFG_UNIX", ""), ("HOME", "/root")] : EnvMap).map Prod.fst).Nodup ∧
    hmLookup (find_matching_vars "CARGO_CFG_"
      [("CARGO_CFG_UNIX", ""), ("HOME", "/root")]) "UNIX" = some "" :=
  ⟨by decide,
   (c8_find_matching_vars_exact "CARGO_CFG_" [("CARGO_CFG_UNIX", ""), ("HOME", "/root")]
     "UNIX" "" (by decide)).mpr (by decide)⟩
